import Mathlib

/-!
# XmlBatchEditor — verification of the core against its specification

Shallow embedding of `src/app.py` (XML Batch Editor): the rule model,
the XML rule engine `apply_rules` with its XPath-by-local-name helper,
the declared-encoding extractor `_extract_declared_encoding`, and the
archive pipeline `process_zip` with `_write_clone_info`.

Bytes are modelled as Lean `String` (the inputs of interest are ASCII, one
`Char` per byte).  The external XML library (lxml / libxml2) is modelled by
concrete executable functions:

* `fromstring` models `etree.fromstring` with the app's
  `XMLParser(remove_blank_text=False, recover=True, strip_cdata=False)`:
  a recovering parse that only fails when no root element can be built;
  malformed trailing material after an open element is dropped and open
  elements are auto-closed, the way libxml2's recovery mode behaves.
* `xpathPredOfExpr` models libxml2's XPath compiler on the fragment of
  XPath the application constructs (`.//*[` predicate `]` where the
  predicate is built from `local-name()`, string literals, `=`, `and`,
  `or`).  Expressions outside the fragment are reported as evaluation
  errors, which is what the engine's per-rule error handling consumes.
* `tostring` models `etree.tostring(root, encoding=e, xml_declaration=True,
  pretty_print=False, with_tail=True)`: a declaration written with single
  quotes, a newline, then the compact serialization of the tree; an
  encoding name unknown to the codec table is a serialization error.
-/

namespace XmlBatchEditor

/-- The rule model of `src/app.py` (`@dataclass Rule`): `mode` is the string
`tag` or `xpath`, `pattern` is a tag local-name or an XPath expression,
`new_value` is the replacement text. -/
structure Rule where
  mode : String
  pattern : String
  new_value : String
deriving Repr, DecidableEq

mutual
/-- One parsed XML element, the shape lxml's `_Element` exposes to this
program: an optional namespace prefix (split off the qualified tag name),
the local name, the attribute list, the direct text (`.text`, `none` for
Python `None`), the children, and the tail text (`.tail`). -/
inductive XElem where
  | mk (ns : Option String) (localName : String)
      (attrs : List (String × String)) (text : Option String)
      (children : XForest) (tail : Option String)
deriving Repr, DecidableEq

/-- A list of sibling elements (a separate inductive so that all recursions
over the tree are structural). -/
inductive XForest where
  | nil
  | cons (head : XElem) (tail : XForest)
deriving Repr, DecidableEq
end

namespace XElem

def ns : XElem → Option String
  | .mk n _ _ _ _ _ => n

def localName : XElem → String
  | .mk _ l _ _ _ _ => l

def attrs : XElem → List (String × String)
  | .mk _ _ a _ _ _ => a

def text : XElem → Option String
  | .mk _ _ _ t _ _ => t

def children : XElem → XForest
  | .mk _ _ _ _ c _ => c

def tail : XElem → Option String
  | .mk _ _ _ _ _ t => t

end XElem

namespace XForest

def ofList : List XElem → XForest
  | [] => .nil
  | e :: es => .cons e (ofList es)

def toList : XForest → List XElem
  | .nil => []
  | .cons e es => e :: toList es

end XForest

/-! ## XPath fragment engine

Models libxml2's XPath compiler/evaluator on the fragment of XPath 1.0 the
application constructs: `.//*[` predicate `]`, the predicate built from
`local-name()`, single-quoted string literals, `=`, `and`, `or`.  The
context node's proper descendants satisfying the predicate form the result
node-set (the `.//*` step selects descendant elements of the context node,
never the context node itself).  Everything outside this fragment is
reported as an evaluation error, the message libxml2 uses for a syntax
fault (`Invalid expression`); valid XPath beyond the fragment is out of
this model's scope and is not relied on by any theorem. -/

/-- Tokens of the predicate fragment (`rbrackTok` is the closing `]` of
the predicate). -/
inductive XPTok where
  | localNameFn
  | eqTok
  | orTok
  | andTok
  | rbrackTok
  | lit (s : String)
deriving Repr, DecidableEq

/-- A term of the predicate fragment: `local-name()` or a string literal. -/
inductive XPTerm where
  | localNameFn
  | lit (s : String)
deriving Repr, DecidableEq

/-- A parsed predicate of the fragment. -/
inductive XPPred where
  | eq (a b : XPTerm)
  | andP (p q : XPPred)
  | orP (p q : XPPred)
deriving Repr, DecidableEq

/-- The apostrophe, the delimiter of the XPath string literals this
application builds. -/
def quoteChar : Char := '\''

/-- Scan a single-quoted XPath literal: the characters up to the closing
quote, and the rest.  `none` when the literal is unterminated (XPath 1.0
literals have no escape mechanism, so a quote always ends the literal). -/
def scanLit (acc : List Char) : List Char → Option (String × List Char)
  | [] => none
  | c :: cs => if c = quoteChar then some (String.mk acc, cs) else scanLit (acc ++ [c]) cs

/-- Tokenize a predicate string of the fragment; `none` = syntax fault.
Fuel-driven so that every definition reduces inside the kernel; the fuel
passed by `xpathPredOfExpr` always suffices (one char is consumed per
step). -/
def xpTokenize (fuel : Nat) (cs : List Char) : Option (List XPTok) :=
  match fuel with
  | 0 => none
  | fuel + 1 =>
    match cs with
    | [] => some []
    | c :: rest =>
      if c = ' ' then xpTokenize fuel rest
      else if c = '=' then (xpTokenize fuel rest).map (XPTok.eqTok :: ·)
      else if c = ']' then (xpTokenize fuel rest).map (XPTok.rbrackTok :: ·)
      else if ("local-name()".data).isPrefixOf cs then
        (xpTokenize fuel (cs.drop 12)).map (XPTok.localNameFn :: ·)
      else if ("or".data).isPrefixOf cs then
        (xpTokenize fuel (cs.drop 2)).map (XPTok.orTok :: ·)
      else if ("and".data).isPrefixOf cs then
        (xpTokenize fuel (cs.drop 3)).map (XPTok.andTok :: ·)
      else if c = quoteChar then
        match scanLit [] rest with
        | none => none
        | some (s, rest2) => (xpTokenize fuel rest2).map (XPTok.lit s :: ·)
      else none

/-- Parse one comparison `Term = Term`. -/
def xpParseCmp (ts : List XPTok) : Option (XPPred × List XPTok) :=
  match ts with
  | XPTok.localNameFn :: XPTok.eqTok :: XPTok.localNameFn :: rest =>
      some (.eq .localNameFn .localNameFn, rest)
  | XPTok.localNameFn :: XPTok.eqTok :: XPTok.lit s :: rest =>
      some (.eq .localNameFn (.lit s), rest)
  | XPTok.lit s :: XPTok.eqTok :: XPTok.localNameFn :: rest =>
      some (.eq (.lit s) .localNameFn, rest)
  | XPTok.lit s :: XPTok.eqTok :: XPTok.lit s2 :: rest =>
      some (.eq (.lit s) (.lit s2), rest)
  | _ => none

/-- Parse a conjunction `Cmp (and Cmp)*`. -/
def xpParseAnd (fuel : Nat) (ts : List XPTok) : Option (XPPred × List XPTok) :=
  match fuel with
  | 0 => none
  | fuel + 1 =>
    match xpParseCmp ts with
    | none => none
    | some (p, rest) =>
      match rest with
      | XPTok.andTok :: rest2 =>
        match xpParseAnd fuel rest2 with
        | none => none
        | some (q, rest3) => some (.andP p q, rest3)
      | _ => some (p, rest)

/-- Parse a disjunction `And (or And)*`. -/
def xpParseOr (fuel : Nat) (ts : List XPTok) : Option (XPPred × List XPTok) :=
  match fuel with
  | 0 => none
  | fuel + 1 =>
    match xpParseAnd fuel ts with
    | none => none
    | some (p, rest) =>
      match rest with
      | XPTok.orTok :: rest2 =>
        match xpParseOr fuel rest2 with
        | none => none
        | some (q, rest3) => some (.orP p q, rest3)
      | _ => some (p, rest)

/-- Value of a term at an element: the fragment's only node-dependent
function is `local-name()`, so an element is represented by its local
name. -/
def xpTermVal (t : XPTerm) (localName : String) : String :=
  match t with
  | .localNameFn => localName
  | .lit s => s

/-- Evaluate a predicate of the fragment at an element (given by its local
name). -/
def evalPred (p : XPPred) (localName : String) : Bool :=
  match p with
  | .eq a b => xpTermVal a localName == xpTermVal b localName
  | .andP p q => evalPred p localName && evalPred q localName
  | .orP p q => evalPred p localName || evalPred q localName

/-- Compile an XPath expression of the fragment `.//*[` predicate `]` to
its predicate; everything else is an evaluation error with libxml2's
syntax-fault message.  The closing bracket is consumed as the token the
parsed predicate must be followed by (and by nothing else). -/
def xpathPredOfExpr (expr : String) : Except String XPPred :=
  let cs := expr.data
  if (".//*[".data).isPrefixOf cs then
    let mid := cs.drop 5
    match xpTokenize (mid.length + 1) mid with
    | none => .error "Invalid expression"
    | some ts =>
      match xpParseOr (ts.length + 1) ts with
      | some (p, [XPTok.rbrackTok]) => .ok p
      | _ => .error "Invalid expression"
  else .error "Invalid expression"

/-! ## Rule application on a parsed tree (`apply_rules`' rule loop)

The source selects the node-set of an XPath expression and then assigns
`el.text = rule.new_value` to each selected element, counting one
application per element.  The node-sets of the fragment are exactly the
proper descendants of the context node satisfying the predicate, so the
select-then-mutate pair is embedded as one traversal that rewrites the
text of every matching descendant and counts the matches. -/

mutual
/-- Rewrite `text` to `some v` on this element if the predicate matches its
local name, and on all its descendants; also the number of elements
rewritten. -/
def replaceElem (p : XPPred) (v : String) : XElem → XElem × Nat
  | .mk ns ln attrs txt cs tl =>
    let r := replaceForest p v cs
    if evalPred p ln then (.mk ns ln attrs (some v) r.1 tl, r.2 + 1)
    else (.mk ns ln attrs txt r.1 tl, r.2)

/-- `replaceElem` over a forest of siblings. -/
def replaceForest (p : XPPred) (v : String) : XForest → XForest × Nat
  | .nil => (.nil, 0)
  | .cons e es =>
    let r1 := replaceElem p v e
    let r2 := replaceForest p v es
    (.cons r1.1 r2.1, r1.2 + r2.2)
end

/-- Apply a compiled predicate at the document root: `.//*` selects the
proper descendants of the root, so the root element itself is never
rewritten. -/
def applyPredAtRoot (p : XPPred) (v : String) (root : XElem) : XElem × Nat :=
  match root with
  | .mk ns ln attrs txt cs tl =>
    let r := replaceForest p v cs
    (.mk ns ln attrs txt r.1 tl, r.2)

/-- The expression `_elements_by_tag_localname` builds (`src/app.py`
line 81): the tag pattern is interpolated verbatim between the quotes of
`.//*[local-name()='…']`. -/
def tagLocalnameExpr (localname : String) : String :=
  ".//*[local-name()='" ++ localname ++ "']"

/-- The XPath expression a rule evaluates: the interpolated local-name
expression in `tag` mode, the raw pattern in `xpath` mode (`src/app.py`
lines 100–103).  The source's post-filter to element nodes is the identity
here because the fragment's node-sets contain only elements. -/
def ruleSelectExpr (r : Rule) : String :=
  if r.mode = "tag" then tagLocalnameExpr r.pattern else r.pattern

/-- The error string `apply_rules` records for a failing rule
(`src/app.py` line 111): `rule '<mode>:<pattern>': <message>`. -/
def ruleErrorString (r : Rule) (msg : String) : String :=
  "rule '" ++ r.mode ++ ":" ++ r.pattern ++ "': " ++ msg

/-- One iteration of the rule loop of `apply_rules` (`src/app.py`
lines 98–111): select and rewrite, or record one error and keep the
document and count as they were. -/
def applyRuleStep (acc : XElem × Nat × List String) (r : Rule) :
    XElem × Nat × List String :=
  match xpathPredOfExpr (ruleSelectExpr r) with
  | .error msg => (acc.1, acc.2.1, acc.2.2 ++ [ruleErrorString r msg])
  | .ok p =>
    let ar := applyPredAtRoot p r.new_value acc.1
    (ar.1, acc.2.1 + ar.2, acc.2.2)

/-- The whole rule loop: rules in list order over the mutating document,
accumulating the applied count and the error list. -/
def applyRulesOnTree (root : XElem) (rules : List Rule) :
    XElem × Nat × List String :=
  rules.foldl applyRuleStep (root, 0, [])

/-! ## Recovering parse (`etree.fromstring` with the app's `PARSER`)

Models lxml's parse with `recover=True` on the subset of XML the claims
exercise: optional declaration, elements with optional `prefix:local`
qualified names (prefixes are taken as declared), attributes quoted either
way, character data.  Recovery behaviour: malformed material inside an
element's content is dropped and all open elements are auto-closed, so a
truncated document such as `<root><` still yields its root; the parse only
fails when no root element can be built at all (empty document, or no
start tag).  Comments, processing instructions, CDATA and entity
references are outside the modelled subset. -/

def isXmlSpace (c : Char) : Bool :=
  c = ' ' || c = '\n' || c = '\t' || c = '\r'

def isNameChar (c : Char) : Bool :=
  c.isAlphanum || c = '_' || c = '-' || c = '.' || c = ':'

/-- Split a qualified tag name at its first colon into the namespace
prefix (if any) and the local name, the split `local-name()` works on. -/
def splitQName (nm : List Char) : Option String × String :=
  let sp := nm.span (fun c => c != ':')
  match sp.2 with
  | [] => (none, String.mk nm)
  | _ :: localPart => (some (String.mk sp.1), String.mk localPart)

/-- `none` for empty character data (lxml's `text`/`tail` are `None` when
absent), `some` otherwise. -/
def mkText (t : List Char) : Option String :=
  if t = [] then none else some (String.mk t)

/-- Rebuild an element with the given tail text. -/
def withTail (e : XElem) (tl : Option String) : XElem :=
  match e with
  | .mk ns ln attrs txt cs _ => .mk ns ln attrs txt cs tl

/-- Drop everything up to and including the next `>` (the scan past a
close tag). -/
def skipPastGt (cs : List Char) : List Char :=
  (cs.dropWhile (fun c => c != '>')).drop 1

/-- Parse the attribute list of a start tag, stopping before `/`, `>` or
the end of input; `none` = malformed start tag. -/
def parseAttrs (fuel : Nat) (cs : List Char) : Option (List (String × String) × List Char) :=
  match fuel with
  | 0 => none
  | fuel + 1 =>
    let cs := cs.dropWhile isXmlSpace
    match cs with
    | [] => some ([], [])
    | '/' :: _ => some ([], cs)
    | '>' :: _ => some ([], cs)
    | _ =>
      let sp := cs.span isNameChar
      if sp.1 = [] then none
      else
        match sp.2 with
        | '=' :: q :: rest2 =>
          if q = '"' || q = quoteChar then
            let vs := rest2.span (fun c => c != q)
            match vs.2 with
            | _ :: rest4 =>
              match parseAttrs fuel rest4 with
              | none => none
              | some (as, r) => some ((String.mk sp.1, String.mk vs.1) :: as, r)
            | [] => none
          else none
        | _ => none

mutual
/-- Parse one element; `cs` starts right after the `<`.  Returns the
element and the rest of the input after its close. -/
def parseElement (fuel : Nat) (cs : List Char) : Option (XElem × List Char) :=
  match fuel with
  | 0 => none
  | fuel + 1 =>
    let sp := cs.span isNameChar
    if sp.1 = [] then none
    else
      let qn := splitQName sp.1
      match parseAttrs (sp.2.length + 1) sp.2 with
      | none => none
      | some (attrs, rest2) =>
        match rest2 with
        | '/' :: '>' :: rest3 => some (.mk qn.1 qn.2 attrs none .nil none, rest3)
        | '>' :: rest3 =>
          let c := parseContent fuel rest3
          some (.mk qn.1 qn.2 attrs c.1 c.2.1 none, c.2.2)
        | _ => none

/-- Parse element content up to a close tag or the end of input (recovery
auto-close): the text before the first child, the children each carrying
the text after it as its tail, and the rest of the input.  A malformed
child start drops the remaining content, the way libxml2's recovery mode
abandons unparsable material. -/
def parseContent (fuel : Nat) (cs : List Char) : Option String × XForest × List Char :=
  match fuel with
  | 0 => (none, .nil, cs)
  | fuel + 1 =>
    let sp := cs.span (fun c => c != '<')
    match sp.2 with
    | [] => (mkText sp.1, .nil, [])
    | _ :: '/' :: rest2 => (mkText sp.1, .nil, skipPastGt rest2)
    | _ :: rest2 =>
      match parseElement fuel rest2 with
      | none => (mkText sp.1, .nil, [])
      | some (child, rest3) =>
        let c := parseContent fuel rest3
        (mkText sp.1, .cons (withTail child c.1) c.2.1, c.2.2)
end

/-- Skip an XML declaration `<?xml … ?>` at the head of the input. -/
def skipPastDecl : List Char → List Char
  | [] => []
  | '?' :: '>' :: rest => rest
  | _ :: rest => skipPastDecl rest

/-- Strip leading whitespace and an optional XML declaration. -/
def stripDecl (cs : List Char) : List Char :=
  let cs1 := cs.dropWhile isXmlSpace
  if ("<?xml".data).isPrefixOf cs1 then skipPastDecl cs1 else cs1

/-- `etree.fromstring(xml_bytes, parser=PARSER)` with the app's recovering
parser (`src/app.py` line 76): fails only when no root element can be
built, otherwise returns the (possibly recovered) root; material after the
root is dropped by recovery and the root's tail stays `None`. -/
def fromstring (data : String) : Except String XElem :=
  let cs1 := (stripDecl data.data).dropWhile isXmlSpace
  match cs1 with
  | [] => .error "Document is empty"
  | '<' :: rest =>
    match parseElement (data.data.length + 2) rest with
    | some (root, _) => .ok root
    | none => .error "Start tag expected, '<' not found"
  | _ => .error "Start tag expected, '<' not found"

/-! ## Serialization (`etree.tostring` as `apply_rules` calls it) -/

/-- The qualified tag name an element serializes with. -/
def qnameStr (e : XElem) : String :=
  match e.ns with
  | some p => p ++ ":" ++ e.localName
  | none => e.localName

/-- Attribute serialization, double-quoted in source order. -/
def attrsStr : List (String × String) → String
  | [] => ""
  | (k, v) :: rest => " " ++ k ++ "=\"" ++ v ++ "\"" ++ attrsStr rest

mutual
/-- Compact serialization of one element (no pretty-printing): an empty
element (no text, no children) self-closes, as lxml serializes it. -/
def serializeElem (e : XElem) : String :=
  match e with
  | .mk ns ln attrs txt cs _ =>
    let tag := qnameStr (.mk ns ln attrs txt cs none)
    match txt, cs with
    | none, .nil => "<" ++ tag ++ attrsStr attrs ++ "/>"
    | _, _ =>
      "<" ++ tag ++ attrsStr attrs ++ ">" ++ txt.getD "" ++ serializeForest cs
        ++ "</" ++ tag ++ ">"

/-- Serialize siblings, each followed by its tail text. -/
def serializeForest : XForest → String
  | .nil => ""
  | .cons e es => serializeElem e ++ (XElem.tail e).getD "" ++ serializeForest es
end

/-- Encodings the codec machinery under `etree.tostring` resolves, by
lowercased name (a model of the codec table restricted to byte encodings
that agree with the ASCII text in scope here). -/
def knownEncodings : List String :=
  ["utf-8", "utf8", "us-ascii", "ascii", "iso-8859-1", "latin-1", "latin1",
   "windows-1251", "cp1251", "koi8-r"]

def lowerAscii (s : String) : String :=
  String.mk (s.data.map Char.toLower)

def isKnownEncoding (e : String) : Bool :=
  knownEncodings.contains (lowerAscii e)

/-- The declaration `etree.tostring(…, xml_declaration=True)` writes:
single-quoted, echoing the requested encoding, followed by a newline. -/
def xmlDeclFor (enc : String) : String :=
  "<?xml version='1.0' encoding='" ++ enc ++ "'?>\n"

/-- `etree.tostring(root, encoding=enc, xml_declaration=True,
pretty_print=False, with_tail=True)`: declaration, compact tree, and the
root's tail; an unresolvable encoding name raises (`LookupError`), which
`apply_rules` turns into a serialize error. -/
def tostring (root : XElem) (enc : String) : Except String String :=
  if isKnownEncoding enc then
    .ok (xmlDeclFor enc ++ serializeElem root ++ (XElem.tail root).getD "")
  else .error ("unknown encoding: '" ++ enc ++ "'")

/-! ## `_extract_declared_encoding` (src/app.py lines 133–144) -/

/-- Index of the first occurrence of `needle` in `hay`, Python's
`str.index` without the exception. -/
def findSublist (hay needle : List Char) : Option Nat :=
  match hay with
  | [] => if needle = [] then some 0 else none
  | _ :: t =>
    if needle.isPrefixOf hay then some 0
    else (findSublist t needle).map (· + 1)

/-- `str.index(needle, start)`: first occurrence at position `start` or
later. -/
def findSublistFrom (hay needle : List Char) (start : Nat) : Option Nat :=
  (findSublist (hay.drop start) needle).map (· + start)

/-- `_extract_declared_encoding`: scan the first 128 bytes (decoded as
ASCII with non-ASCII bytes dropped) for `<?xml` and `encoding`, then take
the text between the next two double quotes after the first `encoding`;
any failure of the scan yields `none`. -/
def _extract_declared_encoding (data : String) : Option String :=
  let head := (data.data.take 128).filter (fun c => c.toNat < 128)
  if (findSublist head ("<?xml".data)).isSome
      && (findSublist head ("encoding".data)).isSome then
    match findSublist head ("encoding".data) with
    | none => none
    | some start =>
      match findSublistFrom head ['"'] start with
      | none => none
      | some q1 =>
        match findSublistFrom head ['"'] (q1 + 1) with
        | none => none
        | some q2 => some (String.mk ((head.drop (q1 + 1)).take (q2 - (q1 + 1))))
  else none

/-! ## `apply_rules` (src/app.py lines 85–130) -/

/-- `apply_rules(xml_bytes, rules)`: parse (recovering), run the rule
loop, and re-serialize in the declared encoding (default `utf-8`);
a parse failure returns the original bytes with a single parse error, a
serialization failure returns the original bytes with the failure appended
to the rule errors. -/
def apply_rules (xml_bytes : String) (rules : List Rule) :
    String × Nat × List String :=
  match fromstring xml_bytes with
  | .error e => (xml_bytes, 0, ["parse error: " ++ e])
  | .ok root =>
    let ar := applyRulesOnTree root rules
    let enc := (_extract_declared_encoding xml_bytes).getD "utf-8"
    match tostring ar.1 enc with
    | .error e => (xml_bytes, ar.2.1, ar.2.2 ++ ["serialize error: " ++ e])
    | .ok nb => (nb, ar.2.1, ar.2.2)

/-! ## The archive pipeline (`process_zip`, src/app.py lines 148–205)

An input archive is a list of entries, each carrying its descriptor
(`ZipInfo`), its bytes, and whether reading it raises an I/O fault (the
`zin.read(info)` of the per-entry `try`, the fault source of the per-entry
boundary) together with that fault's message.  The log sink is modelled by
a flag (`log_writer` supplied or `None`) plus the list of rows the sink
received; wall-clock duration is a parameter (real time is not modelled). -/

/-- `zipfile.ZIP_DEFLATED`. -/
def ZIP_DEFLATED : Nat := 8

/-- The part of `zipfile.ZipInfo` this program reads or writes. -/
structure ZipInfo where
  filename : String
  date_time : List Nat
  create_system : Nat
  external_attr : Nat
  compress_type : Nat
deriving Repr, DecidableEq

/-- One input-archive entry as the pipeline sees it. -/
structure ZEntry where
  info : ZipInfo
  data : String
  readFails : Bool
  failMsg : String
deriving Repr, DecidableEq

/-- `@dataclass ProcessStats` (src/app.py lines 148–154). -/
structure ProcessStats where
  total_files : Nat
  xml_changed : Nat
  xml_unchanged : Nat
  copied_other : Nat
  errors : Nat
deriving Repr, DecidableEq

/-- The zero-initialized stats a run starts with. -/
def ProcessStats.init : ProcessStats :=
  ⟨0, 0, 0, 0, 0⟩

/-- `_write_clone_info` (src/app.py lines 199–205): a fresh descriptor
carrying the source's name and timestamp, deflate compression, and the
source's originating system and external attributes, written with the
given bytes. -/
def _write_clone_info (src_info : ZipInfo) (data : String) : ZipInfo × String :=
  ({ filename := src_info.filename, date_time := src_info.date_time,
     create_system := src_info.create_system,
     external_attr := src_info.external_attr,
     compress_type := ZIP_DEFLATED }, data)

/-- Whether `arcname.lower().endswith('.xml')`. -/
def isXmlName (arcname : String) : Bool :=
  (".xml".data).isSuffixOf (lowerAscii arcname).data

/-- The pipeline's running state: the stats aggregate, the output archive
so far, and the rows the log sink has received. -/
structure PipeState where
  stats : ProcessStats
  outs : List (ZipInfo × String)
  rows : List (List String)
deriving Repr, DecidableEq

def PipeState.init : PipeState :=
  ⟨ProcessStats.init, [], []⟩

/-- The loop body of `process_zip` for one entry (src/app.py
lines 162–191): count the entry; on a read fault count an error, log a
`fatal` row and write nothing; on an XML entry run the engine, log its
errors and add them to the error counter when a log sink is present,
then classify `changed` exactly when `applied > 0` and the bytes differ
(writing the new bytes) and `unchanged` otherwise (writing the original
bytes); any other entry is copied verbatim. -/
def processEntry (hasLog : Bool) (rules : List Rule) (st : PipeState)
    (e : ZEntry) : PipeState :=
  let stats1 : ProcessStats := { st.stats with total_files := st.stats.total_files + 1 }
  let arcname := e.info.filename
  if e.readFails then
    { stats := { stats1 with errors := stats1.errors + 1 },
      outs := st.outs,
      rows := st.rows ++ (if hasLog then [[arcname, "fatal", e.failMsg]] else []) }
  else if isXmlName arcname then
    let r := apply_rules e.data rules
    let new_bytes := r.1
    let applied := r.2.1
    let errs := r.2.2
    let stats2 : ProcessStats :=
      if errs ≠ [] ∧ hasLog then { stats1 with errors := stats1.errors + errs.length }
      else stats1
    let rows2 : List (List String) :=
      if errs ≠ [] ∧ hasLog then st.rows ++ errs.map (fun err => [arcname, "error", err])
      else st.rows
    if 0 < applied ∧ new_bytes ≠ e.data then
      { stats := { stats2 with xml_changed := stats2.xml_changed + 1 },
        outs := st.outs ++ [_write_clone_info e.info new_bytes],
        rows := rows2 ++ (if hasLog then [[arcname, "changed", "applied=" ++ toString applied]] else []) }
    else
      { stats := { stats2 with xml_unchanged := stats2.xml_unchanged + 1 },
        outs := st.outs ++ [_write_clone_info e.info e.data],
        rows := rows2 ++ (if hasLog then [[arcname, "unchanged", "applied=" ++ toString applied]] else []) }
  else
    { stats := { stats1 with copied_other := stats1.copied_other + 1 },
      outs := st.outs ++ [_write_clone_info e.info e.data],
      rows := st.rows }

/-- The whole entry loop of `process_zip`. -/
def processEntries (entries : List ZEntry) (rules : List Rule)
    (hasLog : Bool) : PipeState :=
  entries.foldl (processEntry hasLog rules) PipeState.init

/-- `json.dumps(asdict(stats), ensure_ascii=False)`. -/
def statsJson (s : ProcessStats) : String :=
  "\x7b\"total_files\": " ++ toString s.total_files
    ++ ", \"xml_changed\": " ++ toString s.xml_changed
    ++ ", \"xml_unchanged\": " ++ toString s.xml_unchanged
    ++ ", \"copied_other\": " ++ toString s.copied_other
    ++ ", \"errors\": " ++ toString s.errors ++ "\x7d"

/-- `process_zip(in_zip, out_zip, rules, log_writer)`: the entry loop and,
when a log sink is present, the final `__SUMMARY__` row with the stats
record and the elapsed-duration string; returns the stats, the output
archive and the rows written. -/
def process_zip (entries : List ZEntry) (rules : List Rule) (hasLog : Bool)
    (durStr : String) : ProcessStats × List (ZipInfo × String) × List (List String) :=
  let st := processEntries entries rules hasLog
  (st.stats, st.outs,
    st.rows ++ (if hasLog then [["__SUMMARY__", statsJson st.stats, durStr]] else []))

/-! ## Spec-side definitions

Definitions that follow the specification's words rather than the code, to
compare the code's behaviour against (each is named `spec…`). -/

/-- Follows the spec's words ("output bytes' XML declaration states
encoding `E`"): read the declaration at the head of the document —
`<?xml`, whitespace, `version=` with a value in either quote style, then
optionally whitespace and `encoding=` with a value in either quote
style — and return the declared encoding.  `none` when there is no
declaration or no encoding pseudo-attribute. -/
def specDeclaredEncodingChars (cs : List Char) : Option String :=
  match cs with
  | '<' :: '?' :: 'x' :: 'm' :: 'l' :: rest =>
    let r1 := rest.dropWhile isXmlSpace
    if ("version=".data).isPrefixOf r1 then
      match r1.drop 8 with
      | q :: r2 =>
        if q = '"' || q = quoteChar then
          match (r2.span (fun c => c != q)).2 with
          | _ :: r3 =>
            let r4 := r3.dropWhile isXmlSpace
            if ("encoding=".data).isPrefixOf r4 then
              match r4.drop 9 with
              | q2 :: r5 =>
                if q2 = '"' || q2 = quoteChar then
                  let es := r5.span (fun c => c != q2)
                  match es.2 with
                  | _ :: _ => some (String.mk es.1)
                  | [] => none
                else none
              | [] => none
            else none
          | [] => none
        else none
      | [] => none
    else none
  | _ => none

/-- The declared encoding a document's bytes state (spec reading, either
quote style). -/
def specDeclaredEncoding (s : String) : Option String :=
  specDeclaredEncodingChars s.data

mutual
/-- Follows the spec's words for `tag` mode: replace the direct text of
every element (in this subtree) whose local name equals the pattern,
case-sensitively, regardless of namespace. -/
def specTagRewriteElem (pattern v : String) : XElem → XElem
  | .mk ns ln attrs txt cs tl =>
    if ln = pattern then .mk ns ln attrs (some v) (specTagRewriteForest pattern v cs) tl
    else .mk ns ln attrs txt (specTagRewriteForest pattern v cs) tl

def specTagRewriteForest (pattern v : String) : XForest → XForest
  | .nil => .nil
  | .cons e es => .cons (specTagRewriteElem pattern v e) (specTagRewriteForest pattern v es)
end

mutual
/-- The number of elements in a subtree whose local name equals the
pattern. -/
def specTagCountElem (pattern : String) : XElem → Nat
  | .mk _ ln _ _ cs _ =>
    specTagCountForest pattern cs + (if ln = pattern then 1 else 0)

def specTagCountForest (pattern : String) : XForest → Nat
  | .nil => 0
  | .cons e es => specTagCountElem pattern e + specTagCountForest pattern es
end

/-! ## Per-entry decomposition of the pipeline

Derived forms of `processEntry`'s effect — the stats delta, the output
entries and the log rows one entry contributes, each independent of the
state the loop has reached — with the lemma connecting them to
`processEntry` proved below.  These drive the run-level accounting
theorems. -/

def statsAdd (a b : ProcessStats) : ProcessStats :=
  ⟨a.total_files + b.total_files, a.xml_changed + b.xml_changed,
   a.xml_unchanged + b.xml_unchanged, a.copied_other + b.copied_other,
   a.errors + b.errors⟩

/-- What one entry adds to the stats aggregate. -/
def entryDelta (hasLog : Bool) (rules : List Rule) (e : ZEntry) : ProcessStats :=
  if e.readFails then ⟨1, 0, 0, 0, 1⟩
  else if isXmlName e.info.filename then
    let r := apply_rules e.data rules
    let errInc := if r.2.2 ≠ [] ∧ hasLog then r.2.2.length else 0
    if 0 < r.2.1 ∧ r.1 ≠ e.data then ⟨1, 1, 0, 0, errInc⟩
    else ⟨1, 0, 1, 0, errInc⟩
  else ⟨1, 0, 0, 1, 0⟩

/-- The output-archive entries one input entry contributes. -/
def entryOuts (rules : List Rule) (e : ZEntry) : List (ZipInfo × String) :=
  if e.readFails then []
  else if isXmlName e.info.filename then
    let r := apply_rules e.data rules
    if 0 < r.2.1 ∧ r.1 ≠ e.data then [_write_clone_info e.info r.1]
    else [_write_clone_info e.info e.data]
  else [_write_clone_info e.info e.data]

/-- The log rows one input entry contributes. -/
def entryRows (hasLog : Bool) (rules : List Rule) (e : ZEntry) : List (List String) :=
  if hasLog then
    let arcname := e.info.filename
    if e.readFails then [[arcname, "fatal", e.failMsg]]
    else if isXmlName arcname then
      let r := apply_rules e.data rules
      (if r.2.2 ≠ [] then r.2.2.map (fun err => [arcname, "error", err]) else [])
        ++ (if 0 < r.2.1 ∧ r.1 ≠ e.data then [[arcname, "changed", "applied=" ++ toString r.2.1]]
            else [[arcname, "unchanged", "applied=" ++ toString r.2.1]])
    else []
  else []

/-- The entries of a run that end in a per-entry fatal failure. -/
def fatalCount (entries : List ZEntry) : Nat :=
  (entries.filter (fun e => e.readFails)).length

/-! ## Pipeline decomposition lemmas -/

theorem processEntry_eq (hasLog : Bool) (rules : List Rule) (st : PipeState)
    (e : ZEntry) :
    processEntry hasLog rules st e =
      ⟨statsAdd st.stats (entryDelta hasLog rules e),
       st.outs ++ entryOuts rules e,
       st.rows ++ entryRows hasLog rules e⟩ := by
  obtain ⟨⟨t, c, u, o, er⟩, outs, rows⟩ := st
  simp only [processEntry, entryDelta, entryOuts, entryRows, statsAdd]
  by_cases hf : e.readFails <;> simp only [hf, if_true, if_false, Bool.false_eq_true]
  · cases hasLog <;> simp
  · by_cases hx : isXmlName e.info.filename <;>
      simp only [hx, if_true, if_false, Bool.false_eq_true]
    · cases hasLog <;>
        by_cases hc : 0 < (apply_rules e.data rules).2.1 ∧ (apply_rules e.data rules).1 ≠ e.data <;>
        by_cases he : (apply_rules e.data rules).2.2 ≠ [] <;>
        simp [hc, he, Nat.add_assoc]
    · simp

theorem processEntries_go (rules : List Rule) (hasLog : Bool)
    (entries : List ZEntry) : ∀ st : PipeState,
    entries.foldl (processEntry hasLog rules) st =
      ⟨(entries.map (entryDelta hasLog rules)).foldl statsAdd st.stats,
       st.outs ++ (entries.map (entryOuts rules)).flatten,
       st.rows ++ (entries.map (entryRows hasLog rules)).flatten⟩ := by
  induction entries with
  | nil => intro st; simp
  | cons e es ih =>
    intro st
    simp only [List.foldl_cons, List.map_cons, List.flatten_cons]
    rw [processEntry_eq, ih]
    simp [List.append_assoc]

theorem processEntries_spec (entries : List ZEntry) (rules : List Rule)
    (hasLog : Bool) :
    processEntries entries rules hasLog =
      ⟨(entries.map (entryDelta hasLog rules)).foldl statsAdd ProcessStats.init,
       (entries.map (entryOuts rules)).flatten,
       (entries.map (entryRows hasLog rules)).flatten⟩ := by
  rw [processEntries, processEntries_go]
  rfl

theorem foldl_statsAdd (l : List ProcessStats) : ∀ a : ProcessStats,
    l.foldl statsAdd a =
      ⟨a.total_files + (l.map (·.total_files)).sum,
       a.xml_changed + (l.map (·.xml_changed)).sum,
       a.xml_unchanged + (l.map (·.xml_unchanged)).sum,
       a.copied_other + (l.map (·.copied_other)).sum,
       a.errors + (l.map (·.errors)).sum⟩ := by
  induction l with
  | nil => intro a; simp
  | cons d ds ih =>
    intro a
    simp only [List.foldl_cons, List.map_cons, List.sum_cons, ih, statsAdd]
    simp [Nat.add_assoc]

theorem entryDelta_total (hasLog : Bool) (rules : List Rule) (e : ZEntry) :
    (entryDelta hasLog rules e).total_files = 1 := by
  simp only [entryDelta]
  split
  · rfl
  · split
    · split <;> rfl
    · rfl

theorem entryDelta_sum3 (hasLog : Bool) (rules : List Rule) (e : ZEntry) :
    (entryDelta hasLog rules e).xml_changed + (entryDelta hasLog rules e).xml_unchanged
        + (entryDelta hasLog rules e).copied_other
      = (if e.readFails then 0 else 1) := by
  simp only [entryDelta]
  split
  · rfl
  · split
    · split <;> rfl
    · rfl

theorem entryOuts_length (rules : List Rule) (e : ZEntry) :
    (entryOuts rules e).length = (if e.readFails then 0 else 1) := by
  simp only [entryOuts]
  split
  · rfl
  · split
    · split <;> rfl
    · rfl

theorem sum_if_readFails (entries : List ZEntry) :
    ((entries.map (fun e => if e.readFails then 0 else 1)).sum : Nat)
        + fatalCount entries = entries.length := by
  induction entries with
  | nil => simp [fatalCount]
  | cons e es ih =>
    by_cases hf : e.readFails <;>
      simp [fatalCount, List.filter_cons, hf, Nat.add_assoc, Nat.add_comm,
        Nat.add_left_comm, ← ih]

theorem sum_map_one {α : Type} (l : List α) :
    (l.map (fun _ => (1 : Nat))).sum = l.length := by
  induction l with
  | nil => rfl
  | cons x xs ih => simp [ih, Nat.add_comm]

theorem sum_map_add {α : Type} (l : List α) (f g : α → Nat) :
    (l.map (fun x => f x + g x)).sum = (l.map f).sum + (l.map g).sum := by
  induction l with
  | nil => rfl
  | cons x xs ih => simp [ih]; omega

/-- C6: for every run of `process_zip`, `total_files` equals
`xml_changed + xml_unchanged + copied_other` plus the number of entries
that ended in a per-entry fatal failure, and the output archive's entry
count equals `total_files` minus the fatal-entry count; all five counters
are non-negative (immediate from the counters' ℕ typing — the Python
counters are only ever incremented). -/
theorem C6_stats_invariant (entries : List ZEntry) (rules : List Rule)
    (hasLog : Bool) (durStr : String) :
    (process_zip entries rules hasLog durStr).1.total_files
        = (process_zip entries rules hasLog durStr).1.xml_changed
          + (process_zip entries rules hasLog durStr).1.xml_unchanged
          + (process_zip entries rules hasLog durStr).1.copied_other
          + fatalCount entries
      ∧ (process_zip entries rules hasLog durStr).2.1.length
          = (process_zip entries rules hasLog durStr).1.total_files - fatalCount entries
      ∧ (process_zip entries rules hasLog durStr).2.1.length + fatalCount entries
          = (process_zip entries rules hasLog durStr).1.total_files
      ∧ 0 ≤ (process_zip entries rules hasLog durStr).1.total_files
      ∧ 0 ≤ (process_zip entries rules hasLog durStr).1.xml_changed
      ∧ 0 ≤ (process_zip entries rules hasLog durStr).1.xml_unchanged
      ∧ 0 ≤ (process_zip entries rules hasLog durStr).1.copied_other
      ∧ 0 ≤ (process_zip entries rules hasLog durStr).1.errors := by
  have h1 : (process_zip entries rules hasLog durStr).1
      = (processEntries entries rules hasLog).stats := rfl
  have h2 : (process_zip entries rules hasLog durStr).2.1
      = (processEntries entries rules hasLog).outs := rfl
  rw [h1, h2, processEntries_spec, foldl_statsAdd]
  simp only [List.map_map, Function.comp_def]
  have htot : (entries.map (fun e => (entryDelta hasLog rules e).total_files)).sum
      = entries.length := by
    simp only [entryDelta_total]; exact sum_map_one entries
  have hsum3 : (entries.map (fun e => (entryDelta hasLog rules e).xml_changed)).sum
        + (entries.map (fun e => (entryDelta hasLog rules e).xml_unchanged)).sum
        + (entries.map (fun e => (entryDelta hasLog rules e).copied_other)).sum
        + fatalCount entries
      = entries.length := by
    rw [← sum_map_add, ← sum_map_add]
    simp only [entryDelta_sum3]
    exact sum_if_readFails entries
  have houts : ((entries.map (entryOuts rules)).flatten).length + fatalCount entries
      = entries.length := by
    rw [List.length_flatten, List.map_map, Function.comp_def]
    simp only [entryOuts_length]
    exact sum_if_readFails entries
  refine ⟨?_, ?_, ?_, Nat.zero_le _, Nat.zero_le _, Nat.zero_le _, Nat.zero_le _,
    Nat.zero_le _⟩ <;> simp only [ProcessStats.init] <;> omega

/-- C7: an entry whose read raises is handled at the per-entry boundary:
relative to the same run without it, the stats gain exactly one
`total_files` and one `errors`, the output archive is identical (the
faulting entry is never written), a `fatal` row with the fault message is
logged between the preceding and following entries' rows, and every other
entry is processed exactly as before — one faulting entry never aborts
the run. -/
theorem C7_fatal_entry_isolated (pre post : List ZEntry) (bad : ZEntry)
    (rules : List Rule) (hasLog : Bool) (hb : bad.readFails = true) :
    processEntries (pre ++ bad :: post) rules hasLog =
      ⟨statsAdd (processEntries (pre ++ post) rules hasLog).stats ⟨1, 0, 0, 0, 1⟩,
       (processEntries (pre ++ post) rules hasLog).outs,
       (pre.map (entryRows hasLog rules)).flatten
         ++ (if hasLog then [[bad.info.filename, "fatal", bad.failMsg]] else [])
         ++ (post.map (entryRows hasLog rules)).flatten⟩ := by
  have hdelta : entryDelta hasLog rules bad = ⟨1, 0, 0, 0, 1⟩ := by
    simp [entryDelta, hb]
  have houts : entryOuts rules bad = [] := by
    simp [entryOuts, hb]
  have hrows : entryRows hasLog rules bad
      = (if hasLog then [[bad.info.filename, "fatal", bad.failMsg]] else []) := by
    cases hasLog <;> simp [entryRows, hb]
  rw [processEntries_spec, processEntries_spec]
  simp only [PipeState.mk.injEq, List.map_append, List.map_cons, List.flatten_append,
    List.flatten_cons, foldl_statsAdd, hdelta, houts, hrows, statsAdd,
    List.sum_append, List.sum_cons, List.nil_append, List.append_assoc,
    ProcessStats.mk.injEq]
  repeat' apply And.intro
  all_goals first | trivial | omega

/-- C9: every entry written to the output archive carries the source
entry's name, modification timestamp, originating-system tag and external
attributes unchanged, and its compression method is deflate. -/
theorem C9_metadata_cloned (entries : List ZEntry) (rules : List Rule)
    (hasLog : Bool) (o : ZipInfo × String)
    (ho : o ∈ (processEntries entries rules hasLog).outs) :
    ∃ e ∈ entries,
      o.1.filename = e.info.filename
      ∧ o.1.date_time = e.info.date_time
      ∧ o.1.create_system = e.info.create_system
      ∧ o.1.external_attr = e.info.external_attr
      ∧ o.1.compress_type = ZIP_DEFLATED := by
  rw [processEntries_spec] at ho
  simp only [List.mem_flatten, List.mem_map] at ho
  obtain ⟨l, ⟨e, he, rfl⟩, hol⟩ := ho
  refine ⟨e, he, ?_⟩
  simp only [entryOuts] at hol
  split at hol
  · simp at hol
  · split at hol
    · split at hol <;>
        (simp only [List.mem_singleton] at hol; subst hol;
         exact ⟨rfl, rfl, rfl, rfl, rfl⟩)
    · simp only [List.mem_singleton] at hol; subst hol
      exact ⟨rfl, rfl, rfl, rfl, rfl⟩

theorem getLast?_append_concat {α : Type} (xs ys : List α) (a : α) :
    (xs ++ (ys ++ [a])).getLast? = some a := by
  rw [← List.append_assoc]
  exact List.getLast?_concat _

/-- C5: an XML entry processed without a fatal fault is classified
`changed` — with the engine's result bytes written — exactly when the
applied count is positive and the result bytes differ from the original
bytes; in every other case it is classified `unchanged` and the ORIGINAL
bytes are written, and when a log sink is present the status row logs the
applied count (which may be zero). -/
theorem C5_xml_classification (hasLog : Bool) (rules : List Rule)
    (st : PipeState) (e : ZEntry) (hx : isXmlName e.info.filename = true)
    (hf : e.readFails = false) :
    ((0 < (apply_rules e.data rules).2.1 ∧ (apply_rules e.data rules).1 ≠ e.data) →
      (processEntry hasLog rules st e).stats.xml_changed = st.stats.xml_changed + 1
      ∧ (processEntry hasLog rules st e).stats.xml_unchanged = st.stats.xml_unchanged
      ∧ (processEntry hasLog rules st e).outs
          = st.outs ++ [_write_clone_info e.info (apply_rules e.data rules).1]
      ∧ (hasLog = true → (processEntry hasLog rules st e).rows.getLast?
          = some [e.info.filename, "changed",
                  "applied=" ++ toString (apply_rules e.data rules).2.1]))
    ∧ (¬(0 < (apply_rules e.data rules).2.1 ∧ (apply_rules e.data rules).1 ≠ e.data) →
      (processEntry hasLog rules st e).stats.xml_unchanged = st.stats.xml_unchanged + 1
      ∧ (processEntry hasLog rules st e).stats.xml_changed = st.stats.xml_changed
      ∧ (processEntry hasLog rules st e).outs
          = st.outs ++ [_write_clone_info e.info e.data]
      ∧ (hasLog = true → (processEntry hasLog rules st e).rows.getLast?
          = some [e.info.filename, "unchanged",
                  "applied=" ++ toString (apply_rules e.data rules).2.1])) := by
  rw [processEntry_eq]
  by_cases hc : 0 < (apply_rules e.data rules).2.1 ∧ (apply_rules e.data rules).1 ≠ e.data
  · refine ⟨fun _ => ?_, fun hn => absurd hc hn⟩
    refine ⟨?_, ?_, ?_, ?_⟩ <;>
      cases hasLog <;>
        simp [statsAdd, entryDelta, entryOuts, entryRows, hf, hx, hc,
          getLast?_append_concat]
  · refine ⟨fun hcc => absurd hcc hc, fun _ => ?_⟩
    refine ⟨?_, ?_, ?_, ?_⟩ <;>
      cases hasLog <;>
        simp [statsAdd, entryDelta, entryOuts, entryRows, hf, hx, hc,
          getLast?_append_concat]

/-- C1 (amended): when `apply_rules` reports errors for an XML entry AND a
log sink is supplied, one `error` row per error is logged before the
status row and the error counter grows by the number of errors; when no
log sink is supplied, no rows are emitted and the error counter is NOT
incremented (the increment sits inside the `if errors and log_writer:`
guard). -/
theorem C1_rule_errors_require_sink (hasLog : Bool) (rules : List Rule)
    (st : PipeState) (e : ZEntry) (hx : isXmlName e.info.filename = true)
    (hf : e.readFails = false) (he : (apply_rules e.data rules).2.2 ≠ []) :
    (hasLog = true →
      (processEntry hasLog rules st e).stats.errors
          = st.stats.errors + (apply_rules e.data rules).2.2.length
      ∧ (processEntry hasLog rules st e).rows
          = st.rows
            ++ (apply_rules e.data rules).2.2.map
                (fun err => [e.info.filename, "error", err])
            ++ (if 0 < (apply_rules e.data rules).2.1
                    ∧ (apply_rules e.data rules).1 ≠ e.data
                then [[e.info.filename, "changed",
                       "applied=" ++ toString (apply_rules e.data rules).2.1]]
                else [[e.info.filename, "unchanged",
                       "applied=" ++ toString (apply_rules e.data rules).2.1]]))
    ∧ (hasLog = false →
      (processEntry hasLog rules st e).stats.errors = st.stats.errors
      ∧ (processEntry hasLog rules st e).rows = st.rows) := by
  rw [processEntry_eq]
  cases hasLog
  · refine ⟨fun h => by simp at h, fun _ => ?_⟩
    constructor
    · by_cases hc : 0 < (apply_rules e.data rules).2.1 ∧ (apply_rules e.data rules).1 ≠ e.data <;>
        simp [statsAdd, entryDelta, hf, hx, hc]
    · simp [entryRows]
  · refine ⟨fun _ => ?_, fun h => by simp at h⟩
    constructor
    · by_cases hc : 0 < (apply_rules e.data rules).2.1 ∧ (apply_rules e.data rules).1 ≠ e.data <;>
        simp [statsAdd, entryDelta, hf, hx, hc, he]
    · by_cases hc : 0 < (apply_rules e.data rules).2.1 ∧ (apply_rules e.data rules).1 ≠ e.data <;>
        simp [entryRows, hf, hx, hc, he, List.append_assoc]

theorem applyRules_foldl_shift (rules : List Rule) :
    ∀ (t : XElem) (n : Nat) (errs : List String),
    rules.foldl applyRuleStep (t, n, errs)
      = ((rules.foldl applyRuleStep (t, 0, [])).1,
         n + (rules.foldl applyRuleStep (t, 0, [])).2.1,
         errs ++ (rules.foldl applyRuleStep (t, 0, [])).2.2) := by
  induction rules with
  | nil => intro t n errs; simp
  | cons r rs ih =>
    intro t n errs
    simp only [List.foldl_cons, applyRuleStep]
    cases hxp : xpathPredOfExpr (ruleSelectExpr r) with
    | error msg =>
      simp only [List.nil_append]
      rw [ih t n (errs ++ [ruleErrorString r msg]), ih t 0 [ruleErrorString r msg]]
      simp [List.append_assoc]
    | ok p =>
      simp only [Nat.zero_add]
      rw [ih _ (n + (applyPredAtRoot p r.new_value t).2) errs,
        ih _ ((applyPredAtRoot p r.new_value t).2) []]
      simp [Nat.add_assoc]

theorem applyRulesOnTree_append (t : XElem) (xs ys : List Rule) :
    applyRulesOnTree t (xs ++ ys)
      = ((applyRulesOnTree (applyRulesOnTree t xs).1 ys).1,
         (applyRulesOnTree t xs).2.1
           + (applyRulesOnTree (applyRulesOnTree t xs).1 ys).2.1,
         (applyRulesOnTree t xs).2.2
           ++ (applyRulesOnTree (applyRulesOnTree t xs).1 ys).2.2) := by
  unfold applyRulesOnTree
  rw [List.foldl_append]
  have h := applyRules_foldl_shift ys (xs.foldl applyRuleStep (t, 0, [])).1
      (xs.foldl applyRuleStep (t, 0, [])).2.1 (xs.foldl applyRuleStep (t, 0, [])).2.2
  simpa using h

theorem applyRulesOnTree_cons_error (t : XElem) (r : Rule) (post : List Rule)
    (msg : String) (h : xpathPredOfExpr (ruleSelectExpr r) = .error msg) :
    applyRulesOnTree t (r :: post)
      = ((applyRulesOnTree t post).1, (applyRulesOnTree t post).2.1,
         [ruleErrorString r msg] ++ (applyRulesOnTree t post).2.2) := by
  unfold applyRulesOnTree
  simp only [List.foldl_cons, applyRuleStep, h, List.nil_append]
  rw [applyRules_foldl_shift post t 0 [ruleErrorString r msg]]
  simp

/-- C8: a rule whose matching or evaluation raises is skipped — the
document state reached by the preceding rules passes through unchanged (no
rollback) — exactly one error string `rule '<mode>:<pattern>': <message>`
is appended between the preceding and following rules' errors, and every
subsequent rule is still attempted on the same document. -/
theorem C8_rule_fault_skipped (pre post : List Rule) (r : Rule) (t0 : XElem)
    (msg : String) (h : xpathPredOfExpr (ruleSelectExpr r) = .error msg) :
    applyRulesOnTree t0 (pre ++ r :: post)
      = ((applyRulesOnTree (applyRulesOnTree t0 pre).1 post).1,
         (applyRulesOnTree t0 pre).2.1
           + (applyRulesOnTree (applyRulesOnTree t0 pre).1 post).2.1,
         (applyRulesOnTree t0 pre).2.2
           ++ [ruleErrorString r msg]
           ++ (applyRulesOnTree (applyRulesOnTree t0 pre).1 post).2.2) := by
  rw [applyRulesOnTree_append, applyRulesOnTree_cons_error _ _ _ _ h]
  simp [List.append_assoc]

theorem scanLit_closes (l rest : List Char) (h : quoteChar ∉ l) : ∀ acc,
    scanLit acc (l ++ quoteChar :: rest) = some (String.mk (acc ++ l), rest) := by
  induction l with
  | nil => intro acc; simp [scanLit]
  | cons c cs ih =>
    intro acc
    have hmem : quoteChar ∉ cs := fun hx => h (List.mem_cons_of_mem c hx)
    have hc : ¬(c = quoteChar) := fun hx => h (hx ▸ List.mem_cons_self c cs)
    simp only [List.cons_append, scanLit, if_neg hc, List.append_eq]
    rw [ih hmem (acc ++ [c])]
    simp

theorem xpTokenize_tag_pred (P : String) (hq : quoteChar ∉ P.data) (f : Nat) :
    xpTokenize (f + 5)
        ("local-name()=".data ++ quoteChar :: (P.data ++ [quoteChar, ']']))
      = some [XPTok.localNameFn, XPTok.eqTok, XPTok.lit P, XPTok.rbrackTok] := by
  have hscan := scanLit_closes P.data [']'] hq []
  show xpTokenize (f + 5)
      ('l' :: 'o' :: 'c' :: 'a' :: 'l' :: '-' :: 'n' :: 'a' :: 'm' :: 'e' :: '(' :: ')' :: '=' ::
        quoteChar :: (P.data ++ [quoteChar, ']']))
    = some [XPTok.localNameFn, XPTok.eqTok, XPTok.lit P, XPTok.rbrackTok]
  rw [show f + 5 = (f + 4) + 1 from rfl]
  rw [xpTokenize]
  simp only [quoteChar] at hscan ⊢
  simp [List.isPrefixOf, hscan, xpTokenize, quoteChar]

theorem xpathPredOfExpr_tag (P : String) (hq : quoteChar ∉ P.data) :
    xpathPredOfExpr (tagLocalnameExpr P)
      = .ok (XPPred.eq .localNameFn (.lit P)) := by
  have hdata : (tagLocalnameExpr P).data
      = '.' :: '/' :: '/' :: '*' :: '[' ::
        ("local-name()=".data ++ quoteChar :: (P.data ++ [quoteChar, ']'])) := by
    show (".//*[local-name()='" ++ P ++ "']").data = _
    rw [String.data_append, String.data_append]
    simp [quoteChar]
  unfold xpathPredOfExpr
  rw [hdata]
  rw [if_pos (by simp [List.isPrefixOf])]
  simp only [List.drop_succ_cons, List.drop_zero]
  have hlen : ("local-name()=".data ++ quoteChar :: (P.data ++ [quoteChar, ']'])).length + 1
      = (P.data.length + 12) + 5 := by
    simp [List.length_append]
  rw [hlen, xpTokenize_tag_pred P hq]
  simp [xpParseOr, xpParseAnd, xpParseCmp]

mutual
theorem replaceElem_eq_spec (P v : String) (e : XElem) :
    replaceElem (XPPred.eq .localNameFn (.lit P)) v e
      = (specTagRewriteElem P v e, specTagCountElem P e) := by
  cases e with
  | mk ns ln attrs txt cs tl =>
    by_cases hln : ln = P <;>
      simp [replaceElem, specTagRewriteElem, specTagCountElem, evalPred,
        xpTermVal, hln, replaceForest_eq_spec P v cs]

theorem replaceForest_eq_spec (P v : String) (f : XForest) :
    replaceForest (XPPred.eq .localNameFn (.lit P)) v f
      = (specTagRewriteForest P v f, specTagCountForest P f) := by
  cases f with
  | nil => simp [replaceForest, specTagRewriteForest, specTagCountForest]
  | cons e es =>
    simp [replaceForest, specTagRewriteForest, specTagCountForest,
      replaceElem_eq_spec P v e, replaceForest_eq_spec P v es]
end

/-- C2 (amended): for every parsed document and every tag-mode rule whose
pattern contains no apostrophe, the rule loop of `apply_rules` selects
exactly the elements STRICTLY BELOW the root (the `.//*` axis yields
proper descendants, never the root element itself) whose local name —
namespace prefix stripped, namespace disregarded — equals the pattern
case-sensitively, and replaces each selected element's direct text with
`new_value`; the root element is never rewritten even when its local name
equals the pattern. -/
theorem C2_tag_mode_rewrites_descendants (ns : Option String) (ln : String)
    (attrs : List (String × String)) (txt : Option String) (cs : XForest)
    (tl : Option String) (P v : String) (hq : quoteChar ∉ P.data) :
    applyRulesOnTree (.mk ns ln attrs txt cs tl) [⟨"tag", P, v⟩]
      = (.mk ns ln attrs txt (specTagRewriteForest P v cs) tl,
         specTagCountForest P cs, []) := by
  unfold applyRulesOnTree
  simp only [List.foldl_cons, List.foldl_nil, applyRuleStep, ruleSelectExpr,
    if_pos rfl, reduceIte]
  rw [xpathPredOfExpr_tag P hq]
  simp [applyPredAtRoot, replaceForest_eq_spec]

theorem takeWhile_ne_closes (q : Char) (l rest : List Char) (h : q ∉ l) :
    (l ++ q :: rest).takeWhile (fun c => c != q) = l := by
  induction l with
  | nil => simp [List.takeWhile]
  | cons c cs ih =>
    have hmem : q ∉ cs := fun hx => h (List.mem_cons_of_mem c hx)
    have hc : (c != q) = true := by
      simp only [bne_iff_ne, ne_eq]
      exact fun hx => h (hx ▸ List.mem_cons_self c cs)
    simp [List.takeWhile_cons, hc, ih hmem]

theorem dropWhile_ne_closes (q : Char) (l rest : List Char) (h : q ∉ l) :
    (l ++ q :: rest).dropWhile (fun c => c != q) = q :: rest := by
  induction l with
  | nil => simp [List.dropWhile]
  | cons c cs ih =>
    have hmem : q ∉ cs := fun hx => h (List.mem_cons_of_mem c hx)
    have hc : (c != q) = true := by
      simp only [bne_iff_ne, ne_eq]
      exact fun hx => h (hx ▸ List.mem_cons_self c cs)
    simp [List.dropWhile_cons, hc, ih hmem]

theorem isKnownEncoding_no_quote (E : String) (h : isKnownEncoding E = true) :
    quoteChar ∉ E.data := by
  intro hmem
  have hS : String.mk (E.data.map Char.toLower) ∈ knownEncodings := by
    simpa [isKnownEncoding, lowerAscii, List.contains_iff_exists_mem_beq] using h
  have hall : ∀ s ∈ knownEncodings, quoteChar ∉ s.data := by decide
  have hlq : Char.toLower quoteChar = quoteChar := by decide
  exact hall _ hS (by
    have := List.mem_map_of_mem Char.toLower hmem
    rwa [hlq] at this)

theorem specDecl_of_serialized (E : String) (hq : quoteChar ∉ E.data)
    (body : List Char) :
    specDeclaredEncodingChars
        ("<?xml version='1.0' encoding='".data
          ++ (E.data ++ (quoteChar :: '?' :: '>' :: '\n' :: body)))
      = some E := by
  have htake := takeWhile_ne_closes quoteChar E.data ('?' :: '>' :: '\n' :: body) hq
  have hdrop := dropWhile_ne_closes quoteChar E.data ('?' :: '>' :: '\n' :: body) hq
  have heta : String.mk E.data = E := rfl
  show specDeclaredEncodingChars
      ('<' :: '?' :: 'x' :: 'm' :: 'l' :: ' ' :: 'v' :: 'e' :: 'r' :: 's' :: 'i' :: 'o' :: 'n' ::
        '=' :: quoteChar :: '1' :: '.' :: '0' :: quoteChar :: ' ' :: 'e' :: 'n' :: 'c' :: 'o' ::
        'd' :: 'i' :: 'n' :: 'g' :: '=' :: quoteChar ::
        (E.data ++ (quoteChar :: '?' :: '>' :: '\n' :: body)))
    = some E
  rw [specDeclaredEncodingChars]
  simp only [quoteChar] at htake hdrop
  simp [isXmlSpace, List.isPrefixOf, quoteChar, List.span_eq_take_drop,
    List.dropWhile, htake, hdrop, heta]

/-- C4 (amended): for every input document that parses, whose declared
encoding the header scan extracts as `E` (i.e. the first `encoding` token
in the first 128 bytes is followed by a DOUBLE-quoted value `E` — the
scan does not read single-quoted values), with `E` resolvable by the
serializer, the bytes `apply_rules` returns carry an XML declaration
stating encoding `E` rather than defaulting to UTF-8. -/
theorem C4_double_quoted_encoding_preserved (data : String) (rules : List Rule)
    (E : String) (root : XElem)
    (hext : _extract_declared_encoding data = some E)
    (hkn : isKnownEncoding E = true)
    (hparse : fromstring data = .ok root) :
    specDeclaredEncoding (apply_rules data rules).1 = some E := by
  unfold apply_rules
  rw [hparse]
  simp only [hext, Option.getD_some, tostring, if_pos hkn]
  unfold specDeclaredEncoding xmlDeclFor
  have hq := isKnownEncoding_no_quote E hkn
  have hshape : (("<?xml version='1.0' encoding='" ++ E ++ "'?>\n"
        ++ serializeElem (applyRulesOnTree root rules).1
        ++ ((applyRulesOnTree root rules).1.tail.getD "")) : String).data
      = "<?xml version='1.0' encoding='".data
          ++ (E.data ++ (quoteChar :: '?' :: '>' :: '\n' ::
              ((serializeElem (applyRulesOnTree root rules).1).data
                ++ ((applyRulesOnTree root rules).1.tail.getD "").data))) := by
    simp only [String.data_append, List.append_assoc, quoteChar]
    rfl
  rw [hshape]
  exact specDecl_of_serialized E hq _

/-! ## Counterexamples, amended behaviours at concrete inputs, witnesses -/

/-- C1 counterexample: with no log sink, an XML entry for which
`apply_rules` reports one rule error leaves the run's error counter at 0 —
the counter increment sits inside the `if errors and log_writer:` guard,
so the claim's "including calls where no log sink is supplied" fails. -/
theorem C1_counterexample :
    (apply_rules "<a/>" [⟨"tag", "'", "v"⟩]).2.2.length = 1
    ∧ (process_zip [⟨⟨"e.xml", [1980, 1, 1, 0, 0, 0], 0, 0, 0⟩, "<a/>", false, ""⟩]
        [⟨"tag", "'", "v"⟩] false "0.00s").1.errors = 0 := by
  constructor <;> rfl

/-- C1 witness: the amended statement applied at an XML entry with one
rule error, once with a sink and once without. -/
theorem C1_witness :
    ((processEntry true [⟨"tag", "'", "v"⟩] PipeState.init
        ⟨⟨"e.xml", [1980, 1, 1, 0, 0, 0], 0, 0, 0⟩, "<a/>", false, ""⟩).stats.errors
      = PipeState.init.stats.errors
        + (apply_rules "<a/>" [⟨"tag", "'", "v"⟩]).2.2.length)
    ∧ ((processEntry false [⟨"tag", "'", "v"⟩] PipeState.init
        ⟨⟨"e.xml", [1980, 1, 1, 0, 0, 0], 0, 0, 0⟩, "<a/>", false, ""⟩).stats.errors
      = PipeState.init.stats.errors) :=
  ⟨((C1_rule_errors_require_sink true [⟨"tag", "'", "v"⟩] PipeState.init
      ⟨⟨"e.xml", [1980, 1, 1, 0, 0, 0], 0, 0, 0⟩, "<a/>", false, ""⟩
      (by decide) rfl (by decide)).1 rfl).1,
   ((C1_rule_errors_require_sink false [⟨"tag", "'", "v"⟩] PipeState.init
      ⟨⟨"e.xml", [1980, 1, 1, 0, 0, 0], 0, 0, 0⟩, "<a/>", false, ""⟩
      (by decide) rfl (by decide)).2 rfl).1⟩

/-- C2 counterexample: a document whose ROOT element's local name equals
the tag pattern: the root is not selected (the `.//*` axis yields proper
descendants only), so nothing is replaced and the applied count is 0 —
refuting "including the root element". -/
theorem C2_counterexample :
    apply_rules "<Foo>old</Foo>" [⟨"tag", "Foo", "new"⟩]
      = ("<?xml version='1.0' encoding='utf-8'?>\n<Foo>old</Foo>", 0, []) := by
  rfl

/-- C2 witness: the amended statement at a document with one matching
descendant. -/
theorem C2_witness :
    quoteChar ∉ ("Foo" : String).data
    ∧ applyRulesOnTree
        (.mk none "r" [] none (.cons (.mk none "Foo" [] (some "old") .nil none) .nil) none)
        [⟨"tag", "Foo", "new"⟩]
      = (.mk none "r" [] none
          (specTagRewriteForest "Foo" "new"
            (.cons (.mk none "Foo" [] (some "old") .nil none) .nil)) none,
         specTagCountForest "Foo" (.cons (.mk none "Foo" [] (some "old") .nil none) .nil),
         []) :=
  ⟨by decide,
   C2_tag_mode_rewrites_descendants none "r" [] none
     (.cons (.mk none "Foo" [] (some "old") .nil none) .nil) none "Foo" "new" (by decide)⟩

/-- C3 counterexample: `<root><` does NOT fail the recovering parse: with
one rule present, `apply_rules` reports NO error at all (so "a single
parse-failure error" is false) and the run ends with `errors = 0` (so
"errors ≥ 1" is false). -/
theorem C3_counterexample :
    (apply_rules "<root><" [⟨"tag", "x", "v"⟩]).2.2 = []
    ∧ (process_zip [⟨⟨"bad.xml", [1980, 1, 1, 0, 0, 0], 0, 0, 0⟩, "<root><", false, ""⟩]
        [⟨"tag", "x", "v"⟩] true "0.00s").1.errors = 0 := by
  constructor <;> rfl

/-- C3 (amended): for the input bytes `<root><` and one tag rule, the
recovering parser succeeds with a bare root element; `apply_rules` returns
the re-serialized bytes with `applied_count = 0` and an EMPTY error list
(never raising); since `applied = 0`, `process_zip` writes the ORIGINAL
bytes — the entry is byte-identical — classifies it `unchanged`, and the
run ends with `errors = 0`. -/
theorem C3_recover_parses_truncated_document :
    fromstring "<root><" = .ok (.mk none "root" [] none .nil none)
    ∧ apply_rules "<root><" [⟨"tag", "x", "v"⟩]
        = ("<?xml version='1.0' encoding='utf-8'?>\n<root/>", 0, [])
    ∧ process_zip [⟨⟨"bad.xml", [1980, 1, 1, 0, 0, 0], 0, 0, 0⟩, "<root><", false, ""⟩]
          [⟨"tag", "x", "v"⟩] true "0.00s"
        = (⟨1, 0, 1, 0, 0⟩,
           [(⟨"bad.xml", [1980, 1, 1, 0, 0, 0], 0, 0, 8⟩, "<root><")],
           [["bad.xml", "unchanged", "applied=0"],
            ["__SUMMARY__",
             "\x7b\"total_files\": 1, \"xml_changed\": 0, \"xml_unchanged\": 1, \"copied_other\": 0, \"errors\": 0\x7d",
             "0.00s"]]) := by
  refine ⟨rfl, rfl, rfl⟩

/-- C4 counterexample: a document declaring `encoding='koi8-r'` with
SINGLE quotes, with one matching rule: the header scan only reads
double-quoted values, so the output declaration states `utf-8`, not the
declared `koi8-r` — refuting "with either quoting style". -/
theorem C4_counterexample :
    specDeclaredEncoding "<?xml version='1.0' encoding='koi8-r'?><a><b>x</b></a>"
        = some "koi8-r"
    ∧ (apply_rules "<?xml version='1.0' encoding='koi8-r'?><a><b>x</b></a>"
        [⟨"tag", "b", "y"⟩]).2.1 = 1
    ∧ specDeclaredEncoding
        (apply_rules "<?xml version='1.0' encoding='koi8-r'?><a><b>x</b></a>"
          [⟨"tag", "b", "y"⟩]).1
        = some "utf-8" := by
  refine ⟨rfl, rfl, rfl⟩

/-- C4 witness: the amended statement at a document declaring
`encoding="koi8-r"` in double quotes, with one matching rule. -/
theorem C4_witness :
    _extract_declared_encoding "<?xml version=\"1.0\" encoding=\"koi8-r\"?><a><b>x</b></a>"
        = some "koi8-r"
    ∧ isKnownEncoding "koi8-r" = true
    ∧ specDeclaredEncoding
        (apply_rules "<?xml version=\"1.0\" encoding=\"koi8-r\"?><a><b>x</b></a>"
          [⟨"tag", "b", "y"⟩]).1
        = some "koi8-r" :=
  ⟨rfl, rfl,
   C4_double_quoted_encoding_preserved
     "<?xml version=\"1.0\" encoding=\"koi8-r\"?><a><b>x</b></a>" [⟨"tag", "b", "y"⟩]
     "koi8-r"
     (.mk none "a" [] none (.cons (.mk none "b" [] (some "x") .nil none) .nil) none)
     rfl rfl rfl⟩

/-- C5 witness: the classification applied at an XML entry the engine
changes (one applied rule, differing bytes). -/
theorem C5_witness :
    isXmlName "a.xml" = true
    ∧ (processEntry true [⟨"tag", "Foo", "NEW"⟩] PipeState.init
        ⟨⟨"a.xml", [1980, 1, 1, 0, 0, 0], 0, 0, 0⟩,
         "<r><ns:Foo xmlns:ns=\"u\">old</ns:Foo></r>", false, ""⟩).stats.xml_changed
      = PipeState.init.stats.xml_changed + 1 :=
  ⟨by decide,
   ((C5_xml_classification true [⟨"tag", "Foo", "NEW"⟩] PipeState.init
      ⟨⟨"a.xml", [1980, 1, 1, 0, 0, 0], 0, 0, 0⟩,
       "<r><ns:Foo xmlns:ns=\"u\">old</ns:Foo></r>", false, ""⟩
      (by decide) rfl).1 (by decide)).1⟩

/-- C7 witness: a one-entry archive whose only entry fails to read. -/
theorem C7_witness :
    processEntries [⟨⟨"x.bin", [1980, 1, 1, 0, 0, 0], 0, 0, 0⟩, "d", true, "boom"⟩] [] true
      = ⟨⟨1, 0, 0, 0, 1⟩, [], [["x.bin", "fatal", "boom"]]⟩ := by
  have h := C7_fatal_entry_isolated [] []
    ⟨⟨"x.bin", [1980, 1, 1, 0, 0, 0], 0, 0, 0⟩, "d", true, "boom"⟩ [] true rfl
  simpa using h

/-- C8 witness: a bad rule (lone-apostrophe pattern) between two valid
rules on a small document. -/
theorem C8_witness :
    xpathPredOfExpr (ruleSelectExpr ⟨"tag", "'", "v"⟩) = .error "Invalid expression"
    ∧ applyRulesOnTree (.mk none "r" [] none
          (.cons (.mk none "a" [] (some "t") .nil none) .nil) none)
        ([⟨"tag", "a", "x"⟩] ++ ⟨"tag", "'", "v"⟩ :: [⟨"tag", "a", "y"⟩])
      = ((applyRulesOnTree
            (applyRulesOnTree (.mk none "r" [] none
              (.cons (.mk none "a" [] (some "t") .nil none) .nil) none)
              [⟨"tag", "a", "x"⟩]).1 [⟨"tag", "a", "y"⟩]).1,
         (applyRulesOnTree (.mk none "r" [] none
            (.cons (.mk none "a" [] (some "t") .nil none) .nil) none)
            [⟨"tag", "a", "x"⟩]).2.1
          + (applyRulesOnTree
              (applyRulesOnTree (.mk none "r" [] none
                (.cons (.mk none "a" [] (some "t") .nil none) .nil) none)
                [⟨"tag", "a", "x"⟩]).1 [⟨"tag", "a", "y"⟩]).2.1,
         (applyRulesOnTree (.mk none "r" [] none
            (.cons (.mk none "a" [] (some "t") .nil none) .nil) none)
            [⟨"tag", "a", "x"⟩]).2.2
          ++ [ruleErrorString ⟨"tag", "'", "v"⟩ "Invalid expression"]
          ++ (applyRulesOnTree
              (applyRulesOnTree (.mk none "r" [] none
                (.cons (.mk none "a" [] (some "t") .nil none) .nil) none)
                [⟨"tag", "a", "x"⟩]).1 [⟨"tag", "a", "y"⟩]).2.2) :=
  ⟨rfl,
   C8_rule_fault_skipped [⟨"tag", "a", "x"⟩] [⟨"tag", "a", "y"⟩] ⟨"tag", "'", "v"⟩
     (.mk none "r" [] none (.cons (.mk none "a" [] (some "t") .nil none) .nil) none)
     "Invalid expression" rfl⟩

/-- C9 witness: the metadata-clone property at a one-entry archive. -/
theorem C9_witness :
    (⟨⟨"readme.txt", [2020, 1, 1, 0, 0, 0], 3, 42, 8⟩, "hello"⟩ : ZipInfo × String)
        ∈ (processEntries [⟨⟨"readme.txt", [2020, 1, 1, 0, 0, 0], 3, 42, 0⟩, "hello", false, ""⟩]
            [] true).outs
    ∧ ∃ e ∈ [(⟨⟨"readme.txt", [2020, 1, 1, 0, 0, 0], 3, 42, 0⟩, "hello", false, ""⟩ : ZEntry)],
        (⟨⟨"readme.txt", [2020, 1, 1, 0, 0, 0], 3, 42, 8⟩, "hello"⟩ : ZipInfo × String).1.filename
            = e.info.filename
        ∧ (⟨⟨"readme.txt", [2020, 1, 1, 0, 0, 0], 3, 42, 8⟩, "hello"⟩ : ZipInfo × String).1.date_time
            = e.info.date_time
        ∧ (⟨⟨"readme.txt", [2020, 1, 1, 0, 0, 0], 3, 42, 8⟩, "hello"⟩ : ZipInfo × String).1.create_system
            = e.info.create_system
        ∧ (⟨⟨"readme.txt", [2020, 1, 1, 0, 0, 0], 3, 42, 8⟩, "hello"⟩ : ZipInfo × String).1.external_attr
            = e.info.external_attr
        ∧ (⟨⟨"readme.txt", [2020, 1, 1, 0, 0, 0], 3, 42, 8⟩, "hello"⟩ : ZipInfo × String).1.compress_type
            = ZIP_DEFLATED :=
  ⟨by decide,
   C9_metadata_cloned [⟨⟨"readme.txt", [2020, 1, 1, 0, 0, 0], 3, 42, 0⟩, "hello", false, ""⟩]
     [] true ⟨⟨"readme.txt", [2020, 1, 1, 0, 0, 0], 3, 42, 8⟩, "hello"⟩ (by decide)⟩

/-- C10 counterexample: the apostrophe-containing tag pattern
`x' or '1'='1` is interpolated verbatim and yields the VALID XPath
expression `.//*[local-name()='x' or '1'='1']`, which matches (and
rewrites) an element and reports no rule error — refuting "such a pattern
can never match any element". -/
theorem C10_counterexample :
    quoteChar ∈ ("x' or '1'='1" : String).data
    ∧ apply_rules "<r><a>t</a></r>" [⟨"tag", "x' or '1'='1", "PWNED"⟩]
      = ("<?xml version='1.0' encoding='utf-8'?>\n<r><a>PWNED</a></r>", 1, []) := by
  exact ⟨by decide, rfl⟩

/-- C10 (amended): a tag-mode rule whose pattern contains an apostrophe is
interpolated verbatim into `.//*[local-name()='…']`; WHEN the resulting
expression is invalid XPath (e.g. a lone-apostrophe pattern, which leaves
an unterminated literal) the rule modifies no element and appends exactly
one rule error.  Apostrophe patterns whose interpolation happens to form
valid XPath (quote injection) can instead match and modify elements. -/
theorem C10_invalid_quote_pattern_errors (t : XElem) (r : Rule) (msg : String)
    (_hmode : r.mode = "tag") (_hquote : quoteChar ∈ r.pattern.data)
    (herr : xpathPredOfExpr (ruleSelectExpr r) = .error msg) :
    applyRulesOnTree t [r] = (t, 0, [ruleErrorString r msg]) := by
  unfold applyRulesOnTree
  simp [applyRuleStep, herr]

/-- C10 witness: the lone-apostrophe pattern. -/
theorem C10_witness :
    (⟨"tag", "'", "v"⟩ : Rule).mode = "tag"
    ∧ quoteChar ∈ (⟨"tag", "'", "v"⟩ : Rule).pattern.data
    ∧ xpathPredOfExpr (ruleSelectExpr ⟨"tag", "'", "v"⟩) = .error "Invalid expression"
    ∧ applyRulesOnTree (.mk none "a" [] (some "t") .nil none) [⟨"tag", "'", "v"⟩]
      = (.mk none "a" [] (some "t") .nil none, 0,
         [ruleErrorString ⟨"tag", "'", "v"⟩ "Invalid expression"]) :=
  ⟨rfl, by decide, rfl,
   C10_invalid_quote_pattern_errors (.mk none "a" [] (some "t") .nil none)
     ⟨"tag", "'", "v"⟩ "Invalid expression" rfl (by decide) rfl⟩

end XmlBatchEditor
